import Mathlib

set_option maxHeartbeats 1000000

/-!
Shallow embedding of the cosmic_toplevel plugin
(src/plugins/src/cosmic_toplevel/wayland.rs and mod.rs).

Text is modelled as lists of Unicode code points, wire handles as their numeric
protocol ids, and a panic (a failed unwrap or a todo!) as the value none of an
Option-returning dispatch function.
-/

namespace Launcher

/-- Rust char::to_ascii_lowercase on a code point: shift only A..Z. -/
def toAsciiLower (c : Nat) : Nat := if 65 ≤ c ∧ c ≤ 90 then c + 32 else c

/-- Rust str::to_ascii_lowercase. -/
def lowerStr (s : List Nat) : List Nat := s.map toAsciiLower

/-- Rust char::is_ascii_whitespace: space, tab, line feed, form feed, carriage return. -/
def isAsciiWs (c : Nat) : Bool := decide (c = 32 ∨ c = 9 ∨ c = 10 ∨ c = 12 ∨ c = 13)

/-- Accumulator-passing worker behind splitAW; acc holds the current word reversed. -/
def splitAWGo : List Nat → List Nat → List (List Nat)
  | [], acc => if acc.isEmpty then [] else [acc.reverse]
  | c :: rest, acc =>
    if isAsciiWs c then
      if acc.isEmpty then splitAWGo rest [] else acc.reverse :: splitAWGo rest []
    else
      splitAWGo rest (c :: acc)

/-- Rust str::split_ascii_whitespace: the maximal non-whitespace words, in order. -/
def splitAW (s : List Nat) : List (List Nat) := splitAWGo s []

/-- Code points of a string literal, for writing concrete inputs. -/
def codes (s : String) : List Nat := s.toList.map Char.toNat

/-- Rust slice::chunks(4) on a byte list; the last chunk may be shorter than 4. -/
def chunks4 : List Nat → List (List Nat)
  | [] => []
  | [a] => [[a]]
  | [a, b] => [[a, b]]
  | [a, b, c] => [[a, b, c]]
  | a :: b :: c :: d :: rest => [a, b, c, d] :: chunks4 rest

/-- Rust u32::from_ne_bytes of a 4-byte chunk (the host is little-endian);
none models the try_into().unwrap() panic on a chunk that is not 4 bytes. -/
def u32FromNe : List Nat → Option Nat
  | [a, b, c, d] => some (a + 256 * b + 65536 * c + 16777216 * d)
  | _ => none

/-- The shared word decode of the State and Coordinates payload arms. -/
def decodeU32s (bytes : List Nat) : Option (List Nat) := (chunks4 bytes).mapM u32FromNe

/-- zcosmic_toplevel_handle_v1::State enumerants. -/
inductive TState
  | maximized
  | minimized
  | activated
  | fullscreen
deriving DecidableEq, Repr

/-- zcosmic_toplevel_handle_v1::State::try_from on a u32. -/
def tStateOfU32 : Nat → Option TState
  | 0 => some .maximized
  | 1 => some .minimized
  | 2 => some .activated
  | 3 => some .fullscreen
  | _ => none

/-- The full states decode of the toplevel State arm; none models the panic of
either unwrap (short chunk, or a word with no enumerant). -/
def decodeTStates (bytes : List Nat) : Option (List TState) :=
  decodeU32s bytes >>= fun ws => ws.mapM tStateOfU32

/-- zcosmic_workspace_handle_v1::State enumerants. -/
inductive WState
  | active
  | urgent
  | hidden
deriving DecidableEq, Repr

/-- zcosmic_workspace_handle_v1::State::try_from on a u32. -/
def wStateOfU32 : Nat → Option WState
  | 0 => some .active
  | 1 => some .urgent
  | 2 => some .hidden
  | _ => none

/-- The full states decode of the workspace State arm. -/
def decodeWStates (bytes : List Nat) : Option (List WState) :=
  decodeU32s bytes >>= fun ws => ws.mapM wStateOfU32

/-- wayland.rs struct Toplevel; the handle is its numeric protocol id. -/
structure Toplevel where
  name : List Nat
  app_id : List Nat
  toplevel_handle : Nat
  states : List TState
  output : Option Nat
  workspace : Option Nat
deriving DecidableEq, Repr

/-- wayland.rs struct Workspace. -/
structure Workspace where
  workspace_handle : Nat
  name : List Nat
  coordinates : List Nat
  states : List WState
deriving DecidableEq, Repr

/-- wayland.rs struct WorkspaceGroup. -/
structure WorkspaceGroup where
  workspace_group_handle : Nat
  output : Option Nat
  workspaces : List Workspace
deriving DecidableEq, Repr

/-- wayland.rs struct State, minus the channel endpoint (published events are
returned by dispatch instead). -/
structure State where
  running : Bool
  workspace_manager : Option Nat
  workspace_groups : List WorkspaceGroup
  toplevel_info : Option Nat
  toplevel_manager : Option Nat
  toplevels : List Toplevel
  seats : List Nat
deriving DecidableEq, Repr

/-- wayland.rs enum ToplevelEvent, the events bridged to the consumer. -/
inductive ToplevelEvent
  | Add (t : Toplevel)
  | Remove (t : Toplevel)
deriving DecidableEq, Repr

/-- The wire events the dispatch impls consume, addressed by numeric handle. -/
inductive WireEvent
  | regGlobal (interface : List Nat) (gname : Nat)
  | tiToplevel (h : Nat)
  | tiFinished
  | thClosed (h : Nat)
  | thDone (h : Nat)
  | thTitle (h : Nat) (title : List Nat)
  | thAppId (h : Nat) (app_id : List Nat)
  | thOutputEnter (h : Nat) (output : Nat)
  | thOutputLeave (h : Nat) (output : Nat)
  | thWorkspaceEnter (h : Nat) (w : Nat)
  | thWorkspaceLeave (h : Nat) (w : Nat)
  | thState (h : Nat) (bytes : List Nat)
  | wmWorkspaceGroup (g : Nat)
  | wmDone
  | wmFinished
  | wgOutputEnter (g : Nat) (output : Nat)
  | wgOutputLeave (g : Nat) (output : Nat)
  | wgWorkspace (g : Nat) (w : Nat)
  | wgRemove (g : Nat)
  | whName (w : Nat) (name : List Nat)
  | whCoordinates (w : Nat) (bytes : List Nat)
  | whState (w : Nat) (bytes : List Nat)
  | whRemove (w : Nat)
  | seatEvent (s : Nat)
deriving DecidableEq, Repr

/-- iter_mut().find(p) followed by a field assignment: rewrite the first element
satisfying p, leave everything else untouched. -/
def updateFirst (p : α → Bool) (f : α → α) : List α → List α
  | [] => []
  | x :: xs => if p x then f x :: xs else x :: updateFirst p f xs

/-- workspace_groups.iter_mut().find_map(.. workspaces.iter_mut().find(p) ..):
update the first matching workspace of the first group containing one. -/
def updateWs (p : Workspace → Bool) (f : Workspace → Workspace) :
    List WorkspaceGroup → List WorkspaceGroup
  | [] => []
  | g :: gs =>
    if g.workspaces.any p then
      { g with workspaces := updateFirst p f g.workspaces } :: gs
    else
      g :: updateWs p f gs

/-- workspace_groups.iter_mut().find_map(.. workspaces.position(p) ..) followed by
remove: drop the first matching workspace from the first group containing one. -/
def removeWs (p : Workspace → Bool) : List WorkspaceGroup → List WorkspaceGroup
  | [] => []
  | g :: gs =>
    if g.workspaces.any p then
      { g with workspaces := g.workspaces.eraseP p } :: gs
    else
      g :: removeWs p gs

/-- The coordinate comparator of the workspace-manager Done arm: the first
differing zipped component decides; otherwise Equal (zip stops at the shorter). -/
def lexCmp : List Nat → List Nat → Ordering
  | [], _ => .eq
  | _ :: _, [] => .eq
  | a :: as, b :: bs => if a < b then .lt else if b < a then .gt else lexCmp as bs

/-- Stable insert step of the sort: pass only over strictly greater elements, so
an element never crosses one comparing Equal to it. -/
def insertOrd (w : Workspace) : List Workspace → List Workspace
  | [] => [w]
  | x :: xs =>
    if lexCmp w.coordinates x.coordinates = .gt then x :: insertOrd w xs
    else w :: x :: xs

/-- Vec::sort_by with the coordinate comparator. sort_by is a stable sort,
embedded as stable insertion sort (for a total preorder comparator the stable
sort result is unique). -/
def sortWorkspaces : List Workspace → List Workspace
  | [] => []
  | w :: ws => insertOrd w (sortWorkspaces ws)

/-- The sortedness relation induced by the comparator: not strictly greater. -/
def wsLeProp (a b : Workspace) : Prop := lexCmp a.coordinates b.coordinates ≠ .gt

/-- The record pushed by the info Toplevel arm: all fields empty. -/
def emptyToplevel (h : Nat) : Toplevel := ⟨[], [], h, [], none, none⟩

/-- One step of the Dispatch impls of wayland.rs. Returns the new state together
with the events sent on the bridge channel, or none when the arm panics
(todo! in the info Finished arm; unwrap in the packed-payload decodes). -/
def dispatch (st : State) (e : WireEvent) : Option (State × List ToplevelEvent) :=
  match e with
  | .regGlobal interface gname =>
    if interface = codes "zcosmic_toplevel_info_v1" then
      some ({ st with toplevel_info := some gname }, [])
    else if interface = codes "zcosmic_toplevel_manager_v1" then
      some ({ st with toplevel_manager := some gname }, [])
    else if interface = codes "zcosmic_workspace_manager_v1" then
      some ({ st with workspace_manager := some gname }, [])
    else
      some (st, [])
  | .tiToplevel h =>
    some ({ st with toplevels := st.toplevels ++ [emptyToplevel h] }, [])
  | .tiFinished => none
  | .thClosed h =>
    match st.toplevels.find? (fun t => t.toplevel_handle == h) with
    | some r =>
      some ({ st with toplevels := st.toplevels.eraseP (fun t => t.toplevel_handle == h) },
        [.Remove r])
    | none => some (st, [])
  | .thDone h =>
    match st.toplevels.find? (fun t => t.toplevel_handle == h) with
    | some r => some (st, [.Add r])
    | none => some (st, [])
  | .thTitle h s =>
    some ({ st with toplevels := updateFirst (fun t => t.toplevel_handle == h) (fun t => { t with name := s }) st.toplevels }, [])
  | .thAppId h s =>
    some ({ st with toplevels := updateFirst (fun t => t.toplevel_handle == h) (fun t => { t with app_id := s }) st.toplevels }, [])
  | .thOutputEnter h o =>
    some ({ st with toplevels := updateFirst (fun t => t.toplevel_handle == h) (fun t => { t with output := some o }) st.toplevels }, [])
  | .thOutputLeave h o =>
    some ({ st with toplevels := updateFirst (fun t => t.toplevel_handle == h && t.output == some o) (fun t => { t with output := none }) st.toplevels }, [])
  | .thWorkspaceEnter h w =>
    some ({ st with toplevels := updateFirst (fun t => t.toplevel_handle == h) (fun t => { t with workspace := some w }) st.toplevels }, [])
  | .thWorkspaceLeave h w =>
    some ({ st with toplevels := updateFirst (fun t => t.toplevel_handle == h && t.workspace == some w) (fun t => { t with workspace := none }) st.toplevels }, [])
  | .thState h bytes =>
    match st.toplevels.find? (fun t => t.toplevel_handle == h) with
    | none => some (st, [])
    | some _ =>
      match decodeTStates bytes with
      | none => none
      | some sts =>
        some ({ st with toplevels := updateFirst (fun t => t.toplevel_handle == h) (fun t => { t with states := sts }) st.toplevels }, [])
  | .wmWorkspaceGroup g =>
    some ({ st with workspace_groups := st.workspace_groups ++ [⟨g, none, []⟩] }, [])
  | .wmDone =>
    some ({ st with workspace_groups := st.workspace_groups.map (fun g => { g with workspaces := sortWorkspaces g.workspaces }) }, [])
  | .wmFinished =>
    some ({ st with workspace_manager := none }, [])
  | .wgOutputEnter g o =>
    some ({ st with workspace_groups := updateFirst (fun gr => gr.workspace_group_handle == g) (fun gr => { gr with output := some o }) st.workspace_groups }, [])
  | .wgOutputLeave g o =>
    some ({ st with workspace_groups := updateFirst (fun gr => gr.workspace_group_handle == g && gr.output == some o) (fun gr => { gr with output := none }) st.workspace_groups }, [])
  | .wgWorkspace g w =>
    some ({ st with workspace_groups := updateFirst (fun gr => gr.workspace_group_handle == g) (fun gr => { gr with workspaces := gr.workspaces ++ [⟨w, [], [], []⟩] }) st.workspace_groups }, [])
  | .wgRemove g =>
    some ({ st with workspace_groups := st.workspace_groups.eraseP (fun gr => gr.workspace_group_handle == g) }, [])
  | .whName w s =>
    some ({ st with workspace_groups := updateWs (fun ws => ws.workspace_handle == w) (fun ws => { ws with name := s }) st.workspace_groups }, [])
  | .whCoordinates w bytes =>
    if st.workspace_groups.any (fun g => g.workspaces.any (fun ws => ws.workspace_handle == w))
    then
      match decodeU32s bytes with
      | none => none
      | some coords =>
        some ({ st with workspace_groups := updateWs (fun ws => ws.workspace_handle == w) (fun ws => { ws with coordinates := coords }) st.workspace_groups }, [])
    else some (st, [])
  | .whState w bytes =>
    if st.workspace_groups.any (fun g => g.workspaces.any (fun ws => ws.workspace_handle == w))
    then
      match decodeWStates bytes with
      | none => none
      | some sts =>
        some ({ st with workspace_groups := updateWs (fun ws => ws.workspace_handle == w) (fun ws => { ws with states := sts }) st.workspace_groups }, [])
    else some (st, [])
  | .whRemove w =>
    some ({ st with workspace_groups := removeWs (fun ws => ws.workspace_handle == w) st.workspace_groups }, [])
  | .seatEvent s =>
    if st.seats.all (fun x => x != s) then
      some ({ st with seats := st.seats ++ [s] }, [])
    else
      some (st, [])

/-- Run a whole event sequence, accumulating the published events; none as soon
as any single dispatch panics. -/
def dispatchAll : State → List WireEvent → Option (State × List ToplevelEvent)
  | st, [] => some (st, [])
  | st, e :: evs =>
    match dispatch st e with
    | none => none
    | some (st', pubs) =>
      match dispatchAll st' evs with
      | none => none
      | some (st'', pubs') => some (st'', pubs ++ pubs')

/-- The state built in spawn_toplevels before the loop starts. -/
def initState : State := ⟨true, none, [], none, none, [], []⟩

/-- One desktop-entry file as App::search observes it: the path's file stem (none
when the path has none) and the declared icon name, with none collapsing the
three indistinguishable failures (unreadable file, undecodable entry, no icon). -/
structure DesktopEntry where
  stem : Option (List Nat)
  icon : Option (List Nat)
deriving DecidableEq, Repr

/-- The fields of PluginSearchResult that App::search fills in. -/
structure PluginSearchResult where
  id : Nat
  name : List Nat
  description : List Nat
  icon : List Nat
deriving DecidableEq, Repr

/-- The PluginResponse kinds App::search emits. -/
inductive Response
  | Append (r : PluginSearchResult)
  | Finished
deriving DecidableEq, Repr

/-- Observable effects of one consumer request, in order. toggle is the
com.system76.CosmicAppletHost Toggle call; wireActivate and wireClose are the
ToplevelAction channel sends; flush would be a completed flush of the response
stream. -/
inductive Effect
  | toggle
  | wireActivate (h : Nat)
  | wireClose (h : Nat)
  | send (r : Response)
  | flush
deriving DecidableEq, Repr

/-- mod.rs struct App, minus the channel and stream endpoints (effects are
returned by the operations instead). -/
structure App where
  desktop_entries : List DesktopEntry
  ids_to_ignore : List Nat
  toplevels : List Toplevel
deriving DecidableEq, Repr

/-- toplevel_handle.id().protocol_id(); handles are embedded as that number. -/
def protocolId (h : Nat) : Nat := h

/-- App::activate: a no-op when the id is ignored or resolves to no handle;
otherwise the Toggle side effect, then the Activate channel send. -/
def activate (app : App) (id : Nat) : App × List Effect :=
  if id ∈ app.ids_to_ignore then (app, [])
  else
    match app.toplevels.find? (fun t => protocolId t.toplevel_handle == id) with
    | some t => (app, [.toggle, .wireActivate t.toplevel_handle])
    | none => (app, [])

/-- App::quit: like activate, but only the Close channel send. -/
def quit (app : App) (id : Nat) : App × List Effect :=
  if id ∈ app.ids_to_ignore then (app, [])
  else
    match app.toplevels.find? (fun t => protocolId t.toplevel_handle == id) with
    | some t => (app, [.wireClose t.toplevel_handle])
    | none => (app, [])

/-- The fallback icon name of App::search. -/
def defaultIcon : List Nat := codes "application-x-executable"

/-- The desktop-entry loop of App::search: the first entry whose file stem equals
the app id decides (entries without a stem are skipped); its declared icon if the
read/decode/icon chain succeeds, else the fallback. -/
def iconFor (entries : List DesktopEntry) (app_id : List Nat) : List Nat :=
  match entries.find? (fun e => e.stem == some app_id) with
  | some e => e.icon.getD defaultIcon
  | none => defaultIcon

/-- contains_pattern of App::search: every token of the haystack is a substring
of the ascii-lowercased needle. -/
def containsPattern (needle : List Nat) (haystack : List (List Nat)) : Bool :=
  haystack.all (fun tok => decide (tok <:+: lowerStr needle))

/-- The per-item retain condition of App::search; q is the already-lowercased
query and hay its whitespace-split tokens. -/
def retains (q : List Nat) (hay : List (List Nat)) (t : Toplevel) : Bool :=
  q.isEmpty || containsPattern t.app_id hay || containsPattern t.name hay

/-- The emission loop of App::search: one Append per retained toplevel, in store
order, skipping the rest. -/
def searchLoop (entries : List DesktopEntry) (q : List Nat) (hay : List (List Nat)) :
    List Toplevel → List Effect
  | [] => []
  | t :: ts =>
    if retains q hay t then
      .send (.Append ⟨protocolId t.toplevel_handle, t.app_id, t.name, iconFor entries t.app_id⟩)
        :: searchLoop entries q hay ts
    else
      searchLoop entries q hay ts

/-- App::search: the Appends, then Finished. The closing tx.flush() future is
dropped without being awaited, so no flush effect occurs. -/
def search (app : App) (query : List Nat) : List Effect :=
  searchLoop app.desktop_entries (lowerStr query) (splitAW (lowerStr query)) app.toplevels
    ++ [.send .Finished]

/-- The inbound Request kinds the consumer loop handles with state effects. -/
inductive Request
  | Activate (id : Nat)
  | Quit (id : Nat)
  | Search (query : List Nat)
deriving DecidableEq, Repr

/-- One Request arm of the consumer loop in main; the Search arm clears
ids_to_ignore after App::search returns. -/
def handleRequest (app : App) : Request → App × List Effect
  | .Activate id => activate app id
  | .Quit id => quit app id
  | .Search q => ({ app with ids_to_ignore := [] }, search app q)

/-- One ToplevelEvent arm of the consumer loop in main: Add upserts by handle,
Remove drops by handle and records the numeric id in ids_to_ignore. -/
def handleEvent (app : App) : ToplevelEvent → App
  | .Add t =>
    { app with toplevels :=
        (app.toplevels.filter (fun x => x.toplevel_handle != t.toplevel_handle)) ++ [t] }
  | .Remove t =>
    { app with
      toplevels := app.toplevels.filter (fun x => x.toplevel_handle != t.toplevel_handle),
      ids_to_ignore := app.ids_to_ignore ++ [protocolId t.toplevel_handle] }

/-- Spec wording of the match rule (for C6): empty query, or every
whitespace-separated query token a case-insensitive substring of the application
id, or every token a case-insensitive substring of the title. -/
def matchesSpec (query app_id title : List Nat) : Prop :=
  query = [] ∨
    (∀ tok ∈ splitAW query, lowerStr tok <:+: lowerStr app_id) ∨
    (∀ tok ∈ splitAW query, lowerStr tok <:+: lowerStr title)

/-- Whether a wire event is a toplevel Done commit. -/
def isDoneEv : WireEvent → Bool
  | .thDone _ => true
  | _ => false

/-- Latest-value semantics of one wire event on the record of handle h (the spec
side of C2); Done and events addressed elsewhere leave the record unchanged. -/
def applyE (h : Nat) (r : Toplevel) : WireEvent → Toplevel
  | .thTitle h' s => if h' = h then { r with name := s } else r
  | .thAppId h' s => if h' = h then { r with app_id := s } else r
  | .thOutputEnter h' o => if h' = h then { r with output := some o } else r
  | .thOutputLeave h' o =>
    if h' = h ∧ r.output = some o then { r with output := none } else r
  | .thWorkspaceEnter h' w => if h' = h then { r with workspace := some w } else r
  | .thWorkspaceLeave h' w =>
    if h' = h ∧ r.workspace = some w then { r with workspace := none } else r
  | .thState h' bytes =>
    if h' = h then { r with states := (decodeTStates bytes).getD r.states } else r
  | _ => r

/-- One Add per Done, carrying the snapshot current at that Done (the spec side
of C2). -/
def specAdds (h : Nat) (r : Toplevel) : List WireEvent → List ToplevelEvent
  | [] => []
  | e :: evs =>
    match e with
    | .thDone h' => if h' = h then .Add r :: specAdds h r evs else specAdds h r evs
    | _ => specAdds h (applyE h r e) evs

/-- e is an attribute update or a Done addressed to handle h, any State payload
well formed (C1 records that a malformed payload panics instead). -/
def updOrDone (h : Nat) : WireEvent → Prop
  | .thTitle h' _ => h' = h
  | .thAppId h' _ => h' = h
  | .thOutputEnter h' _ => h' = h
  | .thOutputLeave h' _ => h' = h
  | .thWorkspaceEnter h' _ => h' = h
  | .thWorkspaceLeave h' _ => h' = h
  | .thState h' bytes => h' = h ∧ (decodeTStates bytes).isSome
  | .thDone h' => h' = h
  | _ => False



lemma find?_of_filter_eq_singleton {α : Type} {p : α → Bool} {l : List α} {r : α}
    (h : l.filter p = [r]) : l.find? p = some r := by
  induction l with
  | nil => simp at h
  | cons x xs ih =>
    by_cases hx : p x
    · rw [List.filter_cons_of_pos hx] at h
      injection h with h1 h2
      subst h1
      simp [List.find?_cons_of_pos, hx]
    · rw [List.filter_cons_of_neg hx] at h
      rw [List.find?_cons_of_neg _ hx]
      exact ih h

lemma pred_of_filter_eq_singleton {α : Type} {p : α → Bool} {l : List α} {r : α}
    (h : l.filter p = [r]) : p r = true := by
  have hr : r ∈ l.filter p := by simp [h]
  exact (List.mem_filter.mp hr).2

lemma updateFirst_of_forall_not {α : Type} {q : α → Bool} {f : α → α} {l : List α}
    (h : ∀ x ∈ l, q x = false) : updateFirst q f l = l := by
  induction l with
  | nil => rfl
  | cons x xs ih =>
    rw [updateFirst, h x (by simp)]
    simp only [Bool.false_eq_true, if_false, List.cons.injEq, true_and]
    exact ih (fun y hy => h y (by simp [hy]))

lemma filter_updateFirst {α : Type} {p q : α → Bool} {f : α → α} {l : List α} {r : α}
    (hqp : ∀ x, q x = true → p x = true)
    (hfp : ∀ x, p (f x) = p x)
    (h : l.filter p = [r]) :
    (updateFirst q f l).filter p = [if q r then f r else r] := by
  induction l with
  | nil => simp at h
  | cons x xs ih =>
    by_cases hx : p x
    · rw [List.filter_cons_of_pos hx] at h
      injection h with h1 hnil
      subst h1
      by_cases hq : q x
      · rw [updateFirst, if_pos hq]
        rw [List.filter_cons_of_pos (show p (f x) = true by rw [hfp]; exact hx), hnil]
        simp [hq]
      · have hallp : ∀ y ∈ xs, ¬ p y = true := List.filter_eq_nil_iff.mp hnil
        have hallq : ∀ y ∈ xs, q y = false := fun y hy => by
          cases hqy : q y with
          | false => rfl
          | true => exact absurd (hqp y hqy) (hallp y hy)
        rw [updateFirst, if_neg (by simp [hq])]
        rw [updateFirst_of_forall_not hallq]
        rw [List.filter_cons_of_pos hx, hnil]
        simp [hq]
    · rw [List.filter_cons_of_neg hx] at h
      have hqx : q x = false := by
        cases hqy : q x with
        | false => rfl
        | true => exact absurd (hqp x hqy) hx
      rw [updateFirst, if_neg (by simp [hqx]), List.filter_cons_of_neg hx]
      exact ih h

lemma filter_eraseP {α : Type} {p : α → Bool} {l : List α} {r : α}
    (h : l.filter p = [r]) : (l.eraseP p).filter p = [] := by
  induction l with
  | nil => simp at h
  | cons x xs ih =>
    by_cases hx : p x
    · rw [List.filter_cons_of_pos hx] at h
      injection h with h1 hnil
      rw [List.eraseP_cons_of_pos hx]
      exact hnil
    · rw [List.filter_cons_of_neg hx] at h
      rw [List.eraseP_cons_of_neg hx, List.filter_cons_of_neg hx]
      exact ih h

lemma updateFirst_eq_map {α : Type} {q : α → Bool} {f : α → α} {l : List α}
    (h : l.countP q ≤ 1) :
    updateFirst q f l = l.map (fun x => if q x then f x else x) := by
  induction l with
  | nil => rfl
  | cons x xs ih =>
    rw [List.countP_cons] at h
    by_cases hq : q x
    · rw [if_pos hq] at h
      have hzero : xs.countP q = 0 := by omega
      have hall : ∀ y ∈ xs, ¬ q y = true := List.countP_eq_zero.mp hzero
      rw [updateFirst, if_pos hq, List.map_cons, if_pos hq]
      congr 1
      have hmap : xs.map (fun x => if q x then f x else x) = xs.map id := by
        apply List.map_congr_left
        intro a ha
        simp [hall a ha]
      rw [hmap, List.map_id]
    · rw [if_neg hq] at h
      rw [updateFirst, if_neg (by simp [hq]), List.map_cons, if_neg hq]
      congr 1
      exact ih (by omega)


lemma seats_dispatch {st st' : State} {e : WireEvent} {pubs : List ToplevelEvent}
    (hd : dispatch st e = some (st', pubs)) :
    st'.seats = st.seats ∨ ∃ s, st'.seats = st.seats ++ [s] ∧ s ∉ st.seats := by
  cases e <;> simp only [dispatch] at hd <;> (repeat' split at hd) <;>
    simp only [Option.some.injEq, Prod.mk.injEq, reduceCtorEq] at hd <;>
    (obtain ⟨h1, h2⟩ := hd) <;>
    subst h1 <;>
    first
    | exact Or.inl rfl
    | (rename_i s hall
       refine Or.inr ⟨s, rfl, ?_⟩
       intro hmem
       have hs := List.all_eq_true.mp hall s hmem
       simp at hs)

lemma seats_nodup_dispatch {st st' : State} {e : WireEvent} {pubs : List ToplevelEvent}
    (hd : dispatch st e = some (st', pubs)) (hn : st.seats.Nodup) : st'.seats.Nodup := by
  rcases seats_dispatch hd with h | ⟨s, hs, hmem⟩
  · rw [h]; exact hn
  · rw [hs, List.nodup_append]
    exact ⟨hn, List.nodup_singleton s, by intro a ha hb; simp at hb; subst hb; exact hmem ha⟩

lemma seats_nodup_dispatchAll {st st' : State} {evs : List WireEvent}
    {pubs : List ToplevelEvent}
    (hd : dispatchAll st evs = some (st', pubs)) (hn : st.seats.Nodup) :
    st'.seats.Nodup := by
  induction evs generalizing st pubs with
  | nil =>
    simp only [dispatchAll, Option.some.injEq, Prod.mk.injEq] at hd
    obtain ⟨h1, h2⟩ := hd
    subst h1
    exact hn
  | cons e evs ih =>
    cases he : dispatch st e with
    | none =>
      simp only [dispatchAll, he] at hd
      exact Option.noConfusion hd
    | some p =>
      obtain ⟨st1, pubs1⟩ := p
      cases hrest : dispatchAll st1 evs with
      | none =>
        simp only [dispatchAll, he, hrest] at hd
        exact Option.noConfusion hd
      | some q =>
        obtain ⟨st2, pubs2⟩ := q
        simp only [dispatchAll, he, hrest, Option.some.injEq, Prod.mk.injEq] at hd
        obtain ⟨h1, h2⟩ := hd
        subst h1
        exact ih hrest (seats_nodup_dispatch he hn)


lemma dispatch_step_upd {st : State} {h : Nat} {r : Toplevel} {e : WireEvent}
    (hr : st.toplevels.filter (fun t => t.toplevel_handle == h) = [r])
    (he : updOrDone h e) :
    ∃ st', dispatch st e = some (st', if isDoneEv e then [.Add r] else []) ∧
      st'.toplevels.filter (fun t => t.toplevel_handle == h) = [applyE h r e] := by
  have hpr : (r.toplevel_handle == h) = true :=
    pred_of_filter_eq_singleton (p := fun t : Toplevel => t.toplevel_handle == h) hr
  cases e with
  | thTitle hh s =>
    obtain rfl : hh = h := he
    refine ⟨_, rfl, ?_⟩
    have hft := filter_updateFirst (p := fun t : Toplevel => t.toplevel_handle == hh)
      (q := fun t : Toplevel => t.toplevel_handle == hh)
      (f := fun t => { t with name := s }) (fun x hx => hx) (fun x => rfl) hr
    simp [hft, hpr, applyE]
  | thAppId hh s =>
    obtain rfl : hh = h := he
    refine ⟨_, rfl, ?_⟩
    have hft := filter_updateFirst (p := fun t : Toplevel => t.toplevel_handle == hh)
      (q := fun t : Toplevel => t.toplevel_handle == hh)
      (f := fun t => { t with app_id := s }) (fun x hx => hx) (fun x => rfl) hr
    simp [hft, hpr, applyE]
  | thOutputEnter hh o =>
    obtain rfl : hh = h := he
    refine ⟨_, rfl, ?_⟩
    have hft := filter_updateFirst (p := fun t : Toplevel => t.toplevel_handle == hh)
      (q := fun t : Toplevel => t.toplevel_handle == hh)
      (f := fun t => { t with output := some o }) (fun x hx => hx) (fun x => rfl) hr
    simp [hft, hpr, applyE]
  | thWorkspaceEnter hh w =>
    obtain rfl : hh = h := he
    refine ⟨_, rfl, ?_⟩
    have hft := filter_updateFirst (p := fun t : Toplevel => t.toplevel_handle == hh)
      (q := fun t : Toplevel => t.toplevel_handle == hh)
      (f := fun t => { t with workspace := some w }) (fun x hx => hx) (fun x => rfl) hr
    simp [hft, hpr, applyE]
  | thOutputLeave hh o =>
    obtain rfl : hh = h := he
    refine ⟨_, rfl, ?_⟩
    have hft := filter_updateFirst (p := fun t : Toplevel => t.toplevel_handle == hh)
      (q := fun t : Toplevel => t.toplevel_handle == hh && t.output == some o)
      (f := fun t => { t with output := none })
      (fun x hx => by simpa using (Bool.and_eq_true _ _ |>.mp hx).1) (fun x => rfl) hr
    by_cases hro : r.output = some o
    · simp [hft, hpr, hro, applyE]
    · simp [hft, hpr, hro, applyE]
  | thWorkspaceLeave hh w =>
    obtain rfl : hh = h := he
    refine ⟨_, rfl, ?_⟩
    have hft := filter_updateFirst (p := fun t : Toplevel => t.toplevel_handle == hh)
      (q := fun t : Toplevel => t.toplevel_handle == hh && t.workspace == some w)
      (f := fun t => { t with workspace := none })
      (fun x hx => by simpa using (Bool.and_eq_true _ _ |>.mp hx).1) (fun x => rfl) hr
    by_cases hrw : r.workspace = some w
    · simp [hft, hpr, hrw, applyE]
    · simp [hft, hpr, hrw, applyE]
  | thState hh bytes =>
    obtain ⟨heq, hsome⟩ := he
    obtain rfl : hh = h := heq
    obtain ⟨sts, hsts⟩ := Option.isSome_iff_exists.mp hsome
    have hfind := find?_of_filter_eq_singleton hr
    refine ⟨{ st with toplevels := updateFirst (fun t => t.toplevel_handle == hh) (fun t => { t with states := sts }) st.toplevels }, ?_, ?_⟩
    · simp [dispatch, hfind, hsts, isDoneEv]
    · have hft := filter_updateFirst (p := fun t : Toplevel => t.toplevel_handle == hh)
        (q := fun t : Toplevel => t.toplevel_handle == hh)
        (f := fun t => { t with states := sts }) (fun x hx => hx) (fun x => rfl) hr
      simp [hft, hpr, applyE, hsts]
  | thDone hh =>
    obtain rfl : hh = h := he
    have hfind := find?_of_filter_eq_singleton hr
    refine ⟨st, ?_, ?_⟩
    · simp [dispatch, hfind, isDoneEv]
    · simp [hr, applyE]
  | regGlobal interface gname => exact he.elim
  | tiToplevel hh => exact he.elim
  | tiFinished => exact he.elim
  | thClosed hh => exact he.elim
  | wmWorkspaceGroup g => exact he.elim
  | wmDone => exact he.elim
  | wmFinished => exact he.elim
  | wgOutputEnter g o => exact he.elim
  | wgOutputLeave g o => exact he.elim
  | wgWorkspace g w => exact he.elim
  | wgRemove g => exact he.elim
  | whName w s => exact he.elim
  | whCoordinates w bytes => exact he.elim
  | whState w bytes => exact he.elim
  | whRemove w => exact he.elim
  | seatEvent s => exact he.elim


lemma specAdds_cons {h : Nat} {r : Toplevel} {e : WireEvent} {evs : List WireEvent}
    (he : updOrDone h e) :
    specAdds h r (e :: evs) =
      (if isDoneEv e then [.Add r] else []) ++ specAdds h (applyE h r e) evs := by
  cases e with
  | thDone hh =>
    obtain rfl : hh = h := he
    simp [specAdds, isDoneEv, applyE]
  | thTitle hh s => simp [specAdds, isDoneEv]
  | thAppId hh s => simp [specAdds, isDoneEv]
  | thOutputEnter hh o => simp [specAdds, isDoneEv]
  | thOutputLeave hh o => simp [specAdds, isDoneEv]
  | thWorkspaceEnter hh w => simp [specAdds, isDoneEv]
  | thWorkspaceLeave hh w => simp [specAdds, isDoneEv]
  | thState hh bytes => simp [specAdds, isDoneEv]
  | regGlobal interface gname => exact he.elim
  | tiToplevel hh => exact he.elim
  | tiFinished => exact he.elim
  | thClosed hh => exact he.elim
  | wmWorkspaceGroup g => exact he.elim
  | wmDone => exact he.elim
  | wmFinished => exact he.elim
  | wgOutputEnter g o => exact he.elim
  | wgOutputLeave g o => exact he.elim
  | wgWorkspace g w => exact he.elim
  | wgRemove g => exact he.elim
  | whName w s => exact he.elim
  | whCoordinates w bytes => exact he.elim
  | whState w bytes => exact he.elim
  | whRemove w => exact he.elim
  | seatEvent s => exact he.elim

lemma dispatchAll_upd {st : State} {h : Nat} {r : Toplevel} {evs : List WireEvent}
    (hr : st.toplevels.filter (fun t => t.toplevel_handle == h) = [r])
    (hevs : ∀ e ∈ evs, updOrDone h e) :
    ∃ st', dispatchAll st evs = some (st', specAdds h r evs) ∧
      st'.toplevels.filter (fun t => t.toplevel_handle == h) = [evs.foldl (applyE h) r] := by
  induction evs generalizing st r with
  | nil => exact ⟨st, rfl, hr⟩
  | cons e evs ih =>
    obtain ⟨st1, hd1, hf1⟩ := dispatch_step_upd hr (hevs e (by simp))
    obtain ⟨st2, hd2, hf2⟩ := ih hf1 (fun x hx => hevs x (by simp [hx]))
    refine ⟨st2, ?_, ?_⟩
    · simp only [dispatchAll, hd1, hd2, specAdds_cons (hevs e (by simp))]
    · simpa using hf2

lemma specAdds_length {h : Nat} {r : Toplevel} {evs : List WireEvent}
    (hevs : ∀ e ∈ evs, updOrDone h e) :
    (specAdds h r evs).length = evs.countP isDoneEv := by
  induction evs generalizing r with
  | nil => simp [specAdds]
  | cons e evs ih =>
    rw [specAdds_cons (hevs e (by simp)), List.length_append, List.countP_cons]
    rw [ih (fun x hx => hevs x (by simp [hx]))]
    by_cases hde : isDoneEv e
    · simp [hde]
      omega
    · simp [hde]

lemma specAdds_all_add {h : Nat} {r : Toplevel} {evs : List WireEvent} :
    ∀ x ∈ specAdds h r evs, ∃ t, x = ToplevelEvent.Add t := by
  induction evs generalizing r with
  | nil => simp [specAdds]
  | cons e evs ih =>
    cases e with
    | thDone hh =>
      simp only [specAdds]
      split
      · intro x hx
        rcases List.mem_cons.mp hx with rfl | hmem
        · exact ⟨r, rfl⟩
        · exact ih x hmem
      · exact ih
    | regGlobal interface gname => exact ih
    | tiToplevel hh => exact ih
    | tiFinished => exact ih
    | thClosed hh => exact ih
    | thTitle hh s => exact ih
    | thAppId hh s => exact ih
    | thOutputEnter hh o => exact ih
    | thOutputLeave hh o => exact ih
    | thWorkspaceEnter hh w => exact ih
    | thWorkspaceLeave hh w => exact ih
    | thState hh bytes => exact ih
    | wmWorkspaceGroup g => exact ih
    | wmDone => exact ih
    | wmFinished => exact ih
    | wgOutputEnter g o => exact ih
    | wgOutputLeave g o => exact ih
    | wgWorkspace g w => exact ih
    | wgRemove g => exact ih
    | whName w s => exact ih
    | whCoordinates w bytes => exact ih
    | whState w bytes => exact ih
    | whRemove w => exact ih
    | seatEvent s => exact ih


lemma countP_le_of_imp {α : Type} {p q : α → Bool} {l : List α}
    (h : ∀ x ∈ l, q x = true → p x = true) : l.countP q ≤ l.countP p := by
  induction l with
  | nil => simp
  | cons x xs ih =>
    rw [List.countP_cons, List.countP_cons]
    have hxs := ih (fun y hy => h y (by simp [hy]))
    by_cases hq : q x
    · have hp := h x (by simp) hq
      simp only [hq, hp, if_true]
      omega
    · simp only [hq, Bool.false_eq_true, if_false]
      split <;> omega

/-- C2: for a New announcement followed by any updates and Dones addressed to
one handle (State payloads well formed), the store ends with exactly one record
for that handle holding the latest value of each field, and exactly one Add is
published per Done, each carrying the snapshot current at that Done, including
for repeated Dones. -/
theorem toplevel_new_update_done_commit {st : State} {h : Nat} {evs : List WireEvent}
    (habs : st.toplevels.filter (fun t => t.toplevel_handle == h) = [])
    (hevs : ∀ e ∈ evs, updOrDone h e) :
    ∃ st' pubs, dispatchAll st (.tiToplevel h :: evs) = some (st', pubs) ∧
      st'.toplevels.filter (fun t => t.toplevel_handle == h) =
        [evs.foldl (applyE h) (emptyToplevel h)] ∧
      pubs = specAdds h (emptyToplevel h) evs ∧
      pubs.length = evs.countP isDoneEv ∧
      (∀ x ∈ pubs, ∃ t, x = ToplevelEvent.Add t) := by
  have hstep : dispatch st (.tiToplevel h) =
      some ({ st with toplevels := st.toplevels ++ [emptyToplevel h] }, []) := rfl
  have hfilter1 : ({ st with toplevels := st.toplevels ++ [emptyToplevel h] } : State).toplevels.filter (fun t => t.toplevel_handle == h) = [emptyToplevel h] := by
    simp [List.filter_append, habs, emptyToplevel]
  obtain ⟨st', hall, hf⟩ := dispatchAll_upd hfilter1 hevs
  refine ⟨st', specAdds h (emptyToplevel h) evs, ?_, hf, rfl, specAdds_length hevs,
    specAdds_all_add⟩
  simp only [dispatchAll, hstep, hall, List.nil_append]

/-- Witness for C2 at a concrete sequence with two Dones. -/
theorem toplevel_new_update_done_commit_witness :
    ∃ st' pubs, dispatchAll initState
      [.tiToplevel 5, .thTitle 5 (codes "t"), .thAppId 5 (codes "a"),
        .thState 5 [0, 0, 0, 0], .thDone 5, .thDone 5] = some (st', pubs) ∧
      st'.toplevels.filter (fun t => t.toplevel_handle == 5) =
        [[.thTitle 5 (codes "t"), .thAppId 5 (codes "a"), .thState 5 [0, 0, 0, 0],
          .thDone 5, .thDone 5].foldl (applyE 5) (emptyToplevel 5)] ∧
      pubs = specAdds 5 (emptyToplevel 5)
        [.thTitle 5 (codes "t"), .thAppId 5 (codes "a"), .thState 5 [0, 0, 0, 0],
          .thDone 5, .thDone 5] ∧
      pubs.length = [.thTitle 5 (codes "t"), .thAppId 5 (codes "a"),
        .thState 5 [0, 0, 0, 0], .thDone 5, .thDone 5].countP isDoneEv ∧
      (∀ x ∈ pubs, ∃ t, x = ToplevelEvent.Add t) := by
  apply toplevel_new_update_done_commit (by decide)
  intro e he
  simp only [List.mem_cons, List.not_mem_nil, or_false] at he
  rcases he with rfl | rfl | rfl | rfl | rfl
  · simp [updOrDone]
  · simp [updOrDone]
  · exact ⟨rfl, by decide⟩
  · simp [updOrDone]
  · simp [updOrDone]

/-- C3: a Closed event for a handle with exactly one store record removes the
record and publishes exactly one Remove carrying the removed snapshot. -/
theorem closed_removes_and_publishes {st : State} {h : Nat} {r : Toplevel}
    (hr : st.toplevels.filter (fun t => t.toplevel_handle == h) = [r]) :
    ∃ st', dispatch st (.thClosed h) = some (st', [.Remove r]) ∧
      st'.toplevels.filter (fun t => t.toplevel_handle == h) = [] := by
  have hfind := find?_of_filter_eq_singleton hr
  refine ⟨{ st with toplevels := st.toplevels.eraseP (fun t => t.toplevel_handle == h) }, ?_, ?_⟩
  · simp [dispatch, hfind]
  · exact filter_eraseP hr

/-- Witness for C3 at a concrete store. -/
theorem closed_removes_and_publishes_witness :
    ∃ st', dispatch { initState with toplevels := [emptyToplevel 5] } (.thClosed 5) =
        some (st', [.Remove (emptyToplevel 5)]) ∧
      st'.toplevels.filter (fun t => t.toplevel_handle == 5) = [] :=
  closed_removes_and_publishes (by decide)

/-- C1: contrary to the recover-and-continue specification, a State or
Coordinates payload that fails to decode (wrong length or unmapped word) makes
the dispatch arm panic (modelled as none) whenever the addressed record exists,
instead of logging and keeping the previous field value. -/
theorem packed_decode_failure_aborts :
    (∀ (st : State) (h : Nat) (bytes : List Nat) (r : Toplevel),
        st.toplevels.find? (fun t => t.toplevel_handle == h) = some r →
        decodeTStates bytes = none →
        dispatch st (.thState h bytes) = none) ∧
    (∀ (st : State) (w : Nat) (bytes : List Nat),
        (st.workspace_groups.any (fun g => g.workspaces.any (fun ws => ws.workspace_handle == w))) = true →
        decodeWStates bytes = none →
        dispatch st (.whState w bytes) = none) ∧
    (∀ (st : State) (w : Nat) (bytes : List Nat),
        (st.workspace_groups.any (fun g => g.workspaces.any (fun ws => ws.workspace_handle == w))) = true →
        decodeU32s bytes = none →
        dispatch st (.whCoordinates w bytes) = none) ∧
    decodeTStates [0, 0, 0] = none ∧
    decodeTStates [255, 255, 255, 255] = none ∧
    decodeU32s [0, 0, 0] = none ∧
    decodeWStates [255, 255, 255, 255] = none := by
  refine ⟨?_, ?_, ?_, by decide, by decide, by decide, by decide⟩
  · intro st h bytes r hfind hdec
    simp [dispatch, hfind, hdec]
  · intro st w bytes hany hdec
    simp [dispatch, hany, hdec]
  · intro st w bytes hany hdec
    simp [dispatch, hany, hdec]

/-- Witness for C1: concrete panics for a short State payload on a known
toplevel and an unmapped word on a known workspace. -/
theorem packed_decode_failure_aborts_witness :
    dispatch { initState with toplevels := [emptyToplevel 5] } (.thState 5 [0, 0, 0]) = none ∧
    dispatch { initState with workspace_groups := [⟨1, none, [⟨9, [], [], []⟩]⟩] }
      (.whState 9 [255, 255, 255, 255]) = none :=
  ⟨packed_decode_failure_aborts.1 _ 5 _ (emptyToplevel 5) (by decide) (by decide),
   packed_decode_failure_aborts.2.1 _ 9 _ (by decide) (by decide)⟩

/-- C4: contrary to the stop-accepting-and-continue specification, the info
Finished arm is todo!, i.e. it panics (modelled as none) on every state. -/
theorem info_finished_panics : ∀ st : State, dispatch st .tiFinished = none :=
  fun _ => rfl

/-- C8: with at most one record per handle, an OutputLeave or WorkspaceLeave on
a toplevel, and an OutputLeave on a workspace group, clear the optional
reference exactly on the record whose reference equals the leaving value, and
leave every other record (including one holding a different value or none)
unchanged; nothing is published. -/
theorem guarded_leave_clears_only_equal {st : State} {h o w : Nat}
    (h1 : st.toplevels.countP (fun t => t.toplevel_handle == h) ≤ 1)
    (h2 : st.workspace_groups.countP (fun g => g.workspace_group_handle == h) ≤ 1) :
    dispatch st (.thOutputLeave h o) =
      some ({ st with toplevels := st.toplevels.map (fun t => if t.toplevel_handle == h && t.output == some o then { t with output := none } else t) }, []) ∧
    dispatch st (.thWorkspaceLeave h w) =
      some ({ st with toplevels := st.toplevels.map (fun t => if t.toplevel_handle == h && t.workspace == some w then { t with workspace := none } else t) }, []) ∧
    dispatch st (.wgOutputLeave h o) =
      some ({ st with workspace_groups := st.workspace_groups.map (fun g => if g.workspace_group_handle == h && g.output == some o then { g with output := none } else g) }, []) := by
  refine ⟨?_, ?_, ?_⟩
  all_goals simp only [dispatch]
  · rw [updateFirst_eq_map (le_trans (countP_le_of_imp
      (fun x hx hq => by simpa using (Bool.and_eq_true _ _ |>.mp hq).1)) h1)]
  · rw [updateFirst_eq_map (le_trans (countP_le_of_imp
      (fun x hx hq => by simpa using (Bool.and_eq_true _ _ |>.mp hq).1)) h1)]
  · rw [updateFirst_eq_map (le_trans (countP_le_of_imp
      (fun x hx hq => by simpa using (Bool.and_eq_true _ _ |>.mp hq).1)) h2)]

/-- Witness for C8 at a two-record store: only the record actually holding the
leaving output is cleared. -/
theorem guarded_leave_clears_only_equal_witness :
    dispatch { initState with toplevels := [{ emptyToplevel 5 with output := some 3 }, { emptyToplevel 6 with output := some 4 }] } (.thOutputLeave 5 4) =
      some ({ initState with toplevels := [{ emptyToplevel 5 with output := some 3 }, { emptyToplevel 6 with output := some 4 }].map (fun t => if t.toplevel_handle == 5 && t.output == some 4 then { t with output := none } else t) }, []) :=
  (guarded_leave_clears_only_equal (o := 4) (w := 0) (by decide) (by decide)).1

/-- C10: the seats collection never holds duplicate entries; every seat event
appends only when no equal seat is present, so from the initial state every
reachable state has pairwise distinct seats. -/
theorem seats_no_duplicates {evs : List WireEvent} {st : State} {pubs : List ToplevelEvent}
    (hd : dispatchAll initState evs = some (st, pubs)) : st.seats.Nodup :=
  seats_nodup_dispatchAll hd (by simp [initState])

/-- Witness for C10 at a sequence that offers one seat twice. -/
theorem seats_no_duplicates_witness :
    ({ initState with seats := [1, 2] } : State).seats.Nodup :=
  @seats_no_duplicates [.seatEvent 1, .seatEvent 1, .seatEvent 2]
    { initState with seats := [1, 2] } [] (by decide)


lemma lexCmp_self (a : List Nat) : lexCmp a a = .eq := by
  induction a with
  | nil => rfl
  | cons x xs ih => simp [lexCmp, ih]

lemma lexCmp_swap (a b : List Nat) : lexCmp b a = (lexCmp a b).swap := by
  induction a generalizing b with
  | nil => cases b <;> rfl
  | cons x xs ih =>
    cases b with
    | nil => rfl
    | cons y ys =>
      simp only [lexCmp]
      rcases Nat.lt_trichotomy x y with hxy | hxy | hxy
      · rw [if_pos hxy, if_neg (by omega), if_pos hxy]
        rfl
      · rw [if_neg (by omega), if_neg (by omega), if_neg (by omega), if_neg (by omega)]
        exact ih ys
      · rw [if_pos hxy, if_neg (by omega), if_pos hxy]
        rfl

lemma lexCmp_trans_le {a b c : List Nat} (hab : a.length = b.length)
    (hbc : b.length = c.length)
    (h1 : lexCmp a b ≠ .gt) (h2 : lexCmp b c ≠ .gt) : lexCmp a c ≠ .gt := by
  induction a generalizing b c with
  | nil => cases c <;> simp [lexCmp]
  | cons x xs ih =>
    cases b with
    | nil => simp at hab
    | cons y ys =>
      cases c with
      | nil => simp at hbc
      | cons z zs =>
        simp only [lexCmp] at h1 h2 ⊢
        rcases Nat.lt_trichotomy x y with hxy | hxy | hxy
        · rcases Nat.lt_trichotomy y z with hyz | hyz | hyz
          · rw [if_pos (by omega)]
            simp
          · rw [if_pos (by omega)]
            simp
          · rw [if_neg (by omega), if_pos hyz] at h2
            exact absurd rfl h2
        · subst hxy
          rcases Nat.lt_trichotomy x z with hxz | hxz | hxz
          · rw [if_pos hxz]
            simp
          · subst hxz
            rw [if_neg (by omega), if_neg (by omega)] at h1 h2 ⊢
            exact ih (by simpa using hab) (by simpa using hbc) h1 h2
          · rw [if_neg (by omega), if_pos hxz] at h2
            exact absurd rfl h2
        · rw [if_neg (by omega), if_pos hxy] at h1
          exact absurd rfl h1

lemma perm_insertOrd (w : Workspace) (l : List Workspace) :
    List.Perm (insertOrd w l) (w :: l) := by
  induction l with
  | nil => exact List.Perm.refl _
  | cons x xs ih =>
    simp only [insertOrd]
    split
    · exact (ih.cons x).trans (List.Perm.swap w x xs)
    · exact List.Perm.refl _

lemma perm_sortWorkspaces (l : List Workspace) : List.Perm (sortWorkspaces l) l := by
  induction l with
  | nil => exact List.Perm.refl _
  | cons x xs ih => exact (perm_insertOrd x (sortWorkspaces xs)).trans (ih.cons x)

lemma pairwise_insertOrd {w : Workspace} {l : List Workspace} {n : Nat}
    (hw : w.coordinates.length = n) (hl : ∀ x ∈ l, x.coordinates.length = n)
    (hp : l.Pairwise wsLeProp) : (insertOrd w l).Pairwise wsLeProp := by
  induction l with
  | nil => simp [insertOrd, List.pairwise_singleton]
  | cons x xs ih =>
    rw [List.pairwise_cons] at hp
    obtain ⟨hx_all, hxs⟩ := hp
    simp only [insertOrd]
    split
    · rename_i hgt
      rw [List.pairwise_cons]
      refine ⟨?_, ih (fun y hy => hl y (by simp [hy])) hxs⟩
      intro y hy
      rcases List.mem_cons.mp ((perm_insertOrd w xs).mem_iff.mp hy) with rfl | hyxs
      · show lexCmp x.coordinates y.coordinates ≠ .gt
        rw [lexCmp_swap, hgt]
        decide
      · exact hx_all y hyxs
    · rename_i hngt
      rw [List.pairwise_cons]
      refine ⟨?_, List.pairwise_cons.mpr ⟨hx_all, hxs⟩⟩
      intro y hy
      rcases List.mem_cons.mp hy with rfl | hyxs
      · exact hngt
      · exact lexCmp_trans_le
          (by rw [hw, hl x (by simp)]) (by rw [hl x (by simp), hl y (by simp [hyxs])])
          hngt (hx_all y hyxs)

lemma sorted_sortWorkspaces {l : List Workspace} {n : Nat}
    (hl : ∀ x ∈ l, x.coordinates.length = n) :
    (sortWorkspaces l).Pairwise wsLeProp := by
  induction l with
  | nil => simp [sortWorkspaces]
  | cons x xs ih =>
    refine pairwise_insertOrd (hl x (by simp)) ?_ (ih (fun y hy => hl y (by simp [hy])))
    intro y hy
    exact hl y (by simp [(perm_sortWorkspaces xs).mem_iff.mp hy])

lemma filter_insertOrd_pos {w : Workspace} {l : List Workspace} {c : List Nat}
    (hw : w.coordinates = c) :
    (insertOrd w l).filter (fun x => x.coordinates == c) =
      w :: l.filter (fun x => x.coordinates == c) := by
  induction l with
  | nil => simp [insertOrd, hw]
  | cons x xs ih =>
    simp only [insertOrd]
    split
    · rename_i hgt
      have hxc : ¬ x.coordinates = c := by
        intro hc
        rw [hw, hc, lexCmp_self] at hgt
        exact absurd hgt (by simp)
      rw [List.filter_cons_of_neg (by simp [hxc]), ih,
        List.filter_cons_of_neg (by simp [hxc])]
    · rw [List.filter_cons_of_pos (by simp [hw])]

lemma filter_insertOrd_neg {w : Workspace} {l : List Workspace} {c : List Nat}
    (hw : ¬ w.coordinates = c) :
    (insertOrd w l).filter (fun x => x.coordinates == c) =
      l.filter (fun x => x.coordinates == c) := by
  induction l with
  | nil => simp [insertOrd, hw]
  | cons x xs ih =>
    simp only [insertOrd]
    split
    · by_cases hxc : x.coordinates = c
      · rw [List.filter_cons_of_pos (by simp [hxc]), ih,
          List.filter_cons_of_pos (by simp [hxc])]
      · rw [List.filter_cons_of_neg (by simp [hxc]), ih,
          List.filter_cons_of_neg (by simp [hxc])]
    · rw [List.filter_cons_of_neg (by simp [hw])]

lemma filter_sortWorkspaces (l : List Workspace) (c : List Nat) :
    (sortWorkspaces l).filter (fun x => x.coordinates == c) =
      l.filter (fun x => x.coordinates == c) := by
  induction l with
  | nil => rfl
  | cons x xs ih =>
    show (insertOrd x (sortWorkspaces xs)).filter _ = _
    by_cases hxc : x.coordinates = c
    · rw [filter_insertOrd_pos hxc, ih, List.filter_cons_of_pos (by simp [hxc])]
    · rw [filter_insertOrd_neg hxc, ih, List.filter_cons_of_neg (by simp [hxc])]

/-- C5: the manager Done arm rewrites every group to the stable sort of its
workspaces by the coordinate comparator; the result is ordered by the
first-differing-component rule (within a group of fixed coordinate dimension),
identical tuples keep their prior relative order, the multiset of workspaces is
unchanged, and the tuples (0,1), (0,0), (1,0) sort to (0,0), (0,1), (1,0). -/
theorem manager_done_sorts_stably :
    (∀ st : State, dispatch st .wmDone = some ({ st with workspace_groups := st.workspace_groups.map (fun g => { g with workspaces := sortWorkspaces g.workspaces }) }, [])) ∧
    (∀ (l : List Workspace) (n : Nat), (∀ x ∈ l, x.coordinates.length = n) →
      (sortWorkspaces l).Pairwise wsLeProp) ∧
    (∀ (l : List Workspace) (c : List Nat),
      (sortWorkspaces l).filter (fun x => x.coordinates == c) =
        l.filter (fun x => x.coordinates == c)) ∧
    (∀ l : List Workspace, (sortWorkspaces l).Perm l) ∧
    (sortWorkspaces [⟨0, [], [0, 1], []⟩, ⟨1, [], [0, 0], []⟩, ⟨2, [], [1, 0], []⟩]).map Workspace.coordinates = [[0, 0], [0, 1], [1, 0]] :=
  ⟨fun _ => rfl, fun _ n hl => sorted_sortWorkspaces hl, filter_sortWorkspaces,
    perm_sortWorkspaces, by decide⟩

/-- Witness for C5: the concrete three-workspace group is sorted. -/
theorem manager_done_sorts_stably_witness :
    (sortWorkspaces [⟨0, [], [0, 1], []⟩, ⟨1, [], [0, 0], []⟩, ⟨2, [], [1, 0], []⟩]).Pairwise wsLeProp :=
  manager_done_sorts_stably.2.1 _ 2 (by decide)


lemma isAsciiWs_toAsciiLower (c : Nat) : isAsciiWs (toAsciiLower c) = isAsciiWs c := by
  unfold toAsciiLower isAsciiWs
  split
  · rename_i hc
    simp only [decide_eq_decide]
    omega
  · rfl

lemma lowerStr_nil : lowerStr [] = [] := rfl

lemma lowerStr_cons (c : Nat) (cs : List Nat) :
    lowerStr (c :: cs) = toAsciiLower c :: lowerStr cs := rfl

lemma lowerStr_eq_nil_iff {s : List Nat} : lowerStr s = [] ↔ s = [] := by
  simp [lowerStr]

lemma splitAWGo_lower (l : List Nat) : ∀ acc : List Nat,
    splitAWGo (lowerStr l) (lowerStr acc) = (splitAWGo l acc).map lowerStr := by
  induction l with
  | nil =>
    intro acc
    by_cases hacc : acc = []
    · subst hacc
      rfl
    · rw [lowerStr_nil]
      simp only [splitAWGo]
      rw [if_neg (by simp [lowerStr, hacc]), if_neg (by simp [hacc])]
      simp [lowerStr, List.map_reverse]
  | cons c cs ih =>
    intro acc
    rw [lowerStr_cons]
    simp only [splitAWGo, isAsciiWs_toAsciiLower]
    by_cases hws : isAsciiWs c
    · rw [if_pos hws, if_pos hws]
      by_cases hacc : acc = []
      · subst hacc
        rw [if_pos (by rfl), if_pos (by rfl)]
        exact ih []
      · rw [if_neg (by simp [lowerStr, hacc]), if_neg (by simp [hacc])]
        rw [List.map_cons]
        congr 1
        · simp [lowerStr, List.map_reverse]
        · exact ih []
    · rw [if_neg hws, if_neg hws]
      rw [← lowerStr_cons]
      exact ih (c :: acc)

lemma splitAW_lower (q : List Nat) : splitAW (lowerStr q) = (splitAW q).map lowerStr := by
  rw [splitAW, splitAW]
  exact splitAWGo_lower q []

/-- C6: a window is retained by App::search exactly when the query is empty, or
every whitespace-separated query token is a case-insensitive (ascii) substring
of the application id, or every token is such a substring of the title; in
particular, fire and fire fox match application id firefox, fire chrome does
not. -/
theorem search_match_rule :
    (∀ (query : List Nat) (t : Toplevel),
      retains (lowerStr query) (splitAW (lowerStr query)) t = true ↔
        matchesSpec query t.app_id t.name) ∧
    retains (lowerStr (codes "fire")) (splitAW (lowerStr (codes "fire")))
      ⟨[], codes "firefox", 1, [], none, none⟩ = true ∧
    retains (lowerStr (codes "fire fox")) (splitAW (lowerStr (codes "fire fox")))
      ⟨[], codes "firefox", 1, [], none, none⟩ = true ∧
    retains (lowerStr (codes "fire chrome")) (splitAW (lowerStr (codes "fire chrome")))
      ⟨[], codes "firefox", 1, [], none, none⟩ = false := by
  refine ⟨?_, by decide, by decide, by decide⟩
  intro query t
  rw [retains, splitAW_lower]
  simp only [Bool.or_eq_true, containsPattern, List.all_eq_true, List.mem_map,
    decide_eq_true_eq, List.isEmpty_iff, matchesSpec, lowerStr_eq_nil_iff]
  constructor
  · rintro ((h | h) | h)
    · exact Or.inl h
    · exact Or.inr (Or.inl (fun tok htok => h (lowerStr tok) ⟨tok, htok, rfl⟩))
    · exact Or.inr (Or.inr (fun tok htok => h (lowerStr tok) ⟨tok, htok, rfl⟩))
  · rintro (h | h | h)
    · exact Or.inl (Or.inl h)
    · refine Or.inl (Or.inr ?_)
      rintro x ⟨tok, htok, rfl⟩
      exact h tok htok
    · refine Or.inr ?_
      rintro x ⟨tok, htok, rfl⟩
      exact h tok htok


/-- C7: an Activate or Quit whose id is in the transient ignore-list performs no
effect and leaves all state unchanged; handling a Search clears the ignore-list,
and afterwards an id that still resolves to a live handle is actioned again
(Toggle side effect, then the wire Activate). -/
theorem ignore_list_gates_actions :
    (∀ (app : App) (id : Nat), id ∈ app.ids_to_ignore →
      activate app id = (app, []) ∧ quit app id = (app, [])) ∧
    (∀ (app : App) (q : List Nat), (handleRequest app (.Search q)).1.ids_to_ignore = []) ∧
    (∀ (app : App) (q : List Nat) (id : Nat) (t : Toplevel),
      (handleRequest app (.Search q)).1.toplevels.find?
          (fun x => protocolId x.toplevel_handle == id) = some t →
      activate (handleRequest app (.Search q)).1 id =
        ((handleRequest app (.Search q)).1, [.toggle, .wireActivate t.toplevel_handle])) := by
  refine ⟨?_, fun app q => rfl, ?_⟩
  · intro app id hmem
    constructor
    · simp [activate, hmem]
    · simp [quit, hmem]
  · intro app q id t hfind
    simp only [handleRequest] at hfind ⊢
    simp [activate, hfind]

/-- Witness for C7: id 7 is ignored, then actionable again after a Search. -/
theorem ignore_list_gates_actions_witness :
    activate ⟨[], [7], [emptyToplevel 7]⟩ 7 = (⟨[], [7], [emptyToplevel 7]⟩, []) ∧
    activate (handleRequest ⟨[], [7], [emptyToplevel 7]⟩ (.Search (codes "x"))).1 7 =
      ((handleRequest ⟨[], [7], [emptyToplevel 7]⟩ (.Search (codes "x"))).1,
        [.toggle, .wireActivate 7]) :=
  ⟨(ignore_list_gates_actions.1 ⟨[], [7], [emptyToplevel 7]⟩ 7 (by decide)).1,
   ignore_list_gates_actions.2.2 ⟨[], [7], [emptyToplevel 7]⟩ (codes "x") 7
     (emptyToplevel 7) (by decide)⟩

lemma searchLoop_eq (entries : List DesktopEntry) (q : List Nat) (hay : List (List Nat)) :
    ∀ l : List Toplevel, searchLoop entries q hay l =
      (l.filter (retains q hay)).map
        (fun t => Effect.send (.Append ⟨protocolId t.toplevel_handle, t.app_id, t.name, iconFor entries t.app_id⟩)) := by
  intro l
  induction l with
  | nil => rfl
  | cons t ts ih =>
    by_cases hr : retains q hay t
    · simp only [searchLoop, if_pos hr, List.filter_cons_of_pos hr, List.map_cons, ih]
    · simp only [searchLoop, if_neg hr, List.filter_cons_of_neg hr, ih]

/-- C9: a Search emits one Append per retained window, carrying the numeric
protocol id, the application id as the name, the title as the description and
the resolved icon, followed by exactly one Finished; contrary to the claim, no
flush of the stream occurs, because the tx.flush() future is dropped without
being awaited. -/
theorem search_emits_appends_then_finished_without_flush (app : App) (query : List Nat) :
    search app query =
      ((app.toplevels.filter (retains (lowerStr query) (splitAW (lowerStr query)))).map
        (fun t => Effect.send (.Append ⟨protocolId t.toplevel_handle, t.app_id, t.name, iconFor app.desktop_entries t.app_id⟩)))
        ++ [.send .Finished] ∧
    ((search app query).filter (fun e => e == Effect.send .Finished)).length = 1 ∧
    Effect.flush ∉ search app query := by
  have hmain : search app query =
      ((app.toplevels.filter (retains (lowerStr query) (splitAW (lowerStr query)))).map
        (fun t => Effect.send (.Append ⟨protocolId t.toplevel_handle, t.app_id, t.name, iconFor app.desktop_entries t.app_id⟩)))
        ++ [.send .Finished] := by
    rw [search, searchLoop_eq]
  refine ⟨hmain, ?_, ?_⟩
  · rw [hmain, List.filter_append]
    have h1 : ((app.toplevels.filter (retains (lowerStr query) (splitAW (lowerStr query)))).map
        (fun t => Effect.send (.Append ⟨protocolId t.toplevel_handle, t.app_id, t.name, iconFor app.desktop_entries t.app_id⟩))).filter
          (fun e => e == Effect.send .Finished) = [] := by
      refine List.filter_eq_nil_iff.mpr ?_
      intro e he
      obtain ⟨t, _, rfl⟩ := List.mem_map.mp he
      simp
    rw [h1]
    rfl
  · rw [hmain]
    intro hmem
    rcases List.mem_append.mp hmem with hm | hm
    · obtain ⟨t, _, heq⟩ := List.mem_map.mp hm
      exact absurd heq (by simp)
    · simp at hm

end Launcher
